import Mathlib

/-!
# Verification of the DeepCAVE fANOVA evaluator specification

This development embeds the fANOVA hyperparameter-importance subsystem of the
DeepCAVE repository and the `ParallelCoordinates` plugin
(`deepcave/plugins/objective/parallel_coordinates.py`) in Lean 4 and proves the
specified properties.

The fANOVA core (`deepcave/evaluators/fanova.py`) is not among the provided
source files — only its unit test (`tests/test_evaluators/test_fanova.py`) and
its caller (`parallel_coordinates.py`) are.  Those parts are therefore
modelled from the specification (sections 3, 4, 7 of the spec): each modelled
definition carries a doc comment starting with `Modelled from the spec:`.
The `ParallelCoordinates` plugin logic, which is present in the sources, is
embedded directly from the Python code.

Representation choices for the spec model:
* The encoded search space is a finite grid: hyperparameter `i` has `n i`
  equal-volume cells of its finite encoded range (spec section 3: "every
  hyperparameter has a fixed, finite encoded numeric range used for tree
  splitting").  An axis-aligned leaf box is then a product of cell intervals,
  and volume-weighted averages become uniform averages over grid cells.
* Objective values are exact rationals, `Option ℚ`, where `none` is the
  non-finite "failed / not evaluated" marker of spec section 3.
* The standard deviation across trees is represented by its square (the
  across-tree second central moment), because the square root of a rational
  is in general irrational; equality and determinism statements transfer
  bijectively along the square.
-/

open Finset

namespace DeepCave

variable {d : ℕ} {n : Fin d → ℕ}

/-- Modelled from the spec: a point of the encoded configuration grid.  The
run's search space has `d` hyperparameters; hyperparameter `i` has a finite
encoded range discretized into `n i` equal-volume cells (spec section 3).
A grid point chooses one cell per hyperparameter. -/
abbrev GridPoint (d : ℕ) (n : Fin d → ℕ) : Type := ∀ i : Fin d, Fin (n i)

/-- Modelled from the spec: total number of grid cells of the encoded space. -/
def gridSize (d : ℕ) (n : Fin d → ℕ) : ℕ := Fintype.card (GridPoint d n)

/-- Modelled from the spec (section 4.2): the volume-weighted mean of a
prediction function over the whole encoded space. -/
def gridMean (f : GridPoint d n → ℚ) : ℚ :=
  (∑ x, f x) / (gridSize d n : ℚ)

/-- Modelled from the spec (section 4.2): the tree's predicted total variance
`V_total` — variance of the predictions weighted by volume fraction. -/
def totalVariance (f : GridPoint d n → ℚ) : ℚ :=
  (∑ x, (f x - gridMean f) ^ 2) / (gridSize d n : ℚ)

/-- The slice of the grid where hyperparameter `i` takes cell value `a`. -/
def fiber (i : Fin d) (a : Fin (n i)) : Finset (GridPoint d n) :=
  univ.filter (fun x => x i = a)

/-- Modelled from the spec (section 4.2): the marginal prediction function for
the singleton subset `{i}` — the prediction averaged, with volume weights,
over all dimensions other than `i`. -/
def marginalMean (f : GridPoint d n → ℚ) (i : Fin d) (a : Fin (n i)) : ℚ :=
  (∑ x ∈ fiber i a, f x) / ((fiber i a).card : ℚ)

/-- Modelled from the spec (section 4.2): `V_S` for the singleton subset
`S = {i}` — the variance of the marginal prediction function of `i`. -/
def marginalVariance (f : GridPoint d n → ℚ) (i : Fin d) : ℚ :=
  (∑ a, (marginalMean f i a - gridMean f) ^ 2) / (n i : ℚ)

/-- Modelled from the spec (section 4.2): the importance fraction of a single
hyperparameter in one tree, `V_S / V_total`, defined as `0` when
`V_total = 0` (degenerate / constant surrogate). -/
def importanceFrac (f : GridPoint d n → ℚ) (i : Fin d) : ℚ :=
  if totalVariance f = 0 then 0 else marginalVariance f i / totalVariance f

/-! ## Combinatorial facts about the grid -/

/-- The grid points outside coordinate `i`. -/
abbrev RestPoint (n : Fin d → ℕ) (i : Fin d) : Type :=
  ∀ j : { j : Fin d // j ≠ i }, Fin (n j.1)

/-- Pairs of a product type with a fixed first component are equivalent to the
second factor. -/
def prodFstFiberEquiv {α β : Type*} (a : α) : { p : α × β // p.1 = a } ≃ β where
  toFun p := p.1.2
  invFun b := ⟨(a, b), rfl⟩
  left_inv := by
    rintro ⟨⟨x, y⟩, h⟩
    cases h
    rfl
  right_inv b := rfl

/-- A fiber of the grid over a cell of coordinate `i` is equivalent to the
grid on the remaining coordinates. -/
def fiberEquivRest (i : Fin d) (a : Fin (n i)) :
    { x : GridPoint d n // x i = a } ≃ RestPoint n i :=
  ((Equiv.piSplitAt i (fun j => Fin (n j))).subtypeEquiv (fun x => by
    simp [Equiv.piSplitAt])).trans (prodFstFiberEquiv a)

/-! ## The functional-ANOVA main-effect inequality

For any prediction function on the grid, the single-hyperparameter marginal
variances sum to at most the total variance.  The proof is the classical
orthogonality argument: the main-effect components are pairwise orthogonal
projections of the centered prediction. -/

/-- The sum of the centered predictions over the fiber of cell `a` of
coordinate `i` (an unnormalized main-effect component). -/
def centeredFiberSum (f : GridPoint d n → ℚ) (i : Fin d) (a : Fin (n i)) : ℚ :=
  ∑ x ∈ fiber i a, (f x - gridMean f)

/-- The squared norm of the (unnormalized) main-effect component of
coordinate `i`, scaled by the co-grid size. -/
def mainEffectEnergy (f : GridPoint d n → ℚ) (i : Fin d) : ℚ :=
  (∑ a, centeredFiberSum f i a ^ 2) / (Fintype.card (RestPoint n i) : ℚ)

/-! ## Surrogate trees and the forest builder -/

/-- Modelled from the spec (section 3, "Surrogate Tree"): a binary tree over
the encoded configuration grid.  An internal node holds a split
hyperparameter index and a cell threshold; a leaf holds a scalar prediction
(the mean objective of the training rows landing there). -/
inductive STree (d : ℕ) (n : Fin d → ℕ) : Type where
  | leaf (pred : ℚ) : STree d n
  | node (dim : Fin d) (thresh : ℕ) (left right : STree d n) : STree d n
deriving DecidableEq

/-- The prediction function of a surrogate tree: descend by comparing the
cell of the split hyperparameter against the threshold. -/
def STree.eval : STree d n → GridPoint d n → ℚ
  | .leaf p, _ => p
  | .node i t l r, x => if (x i : ℕ) < t then l.eval x else r.eval x

/-- Mean of a list of rationals (`0` on the empty list). -/
def listMean (l : List ℚ) : ℚ := l.sum / (l.length : ℚ)

/-- Sum of squared deviations of a list from its own mean. -/
def listSSE (l : List ℚ) : ℚ := (l.map (fun y => (y - listMean l) ^ 2)).sum

/-- A training row: an encoded configuration together with its (finite)
objective value. -/
abbrev Row (d : ℕ) (n : Fin d → ℕ) : Type := GridPoint d n × ℚ

/-- Rows sent to the left branch by split `(i, t)`. -/
def leftRows (rows : List (Row d n)) (i : Fin d) (t : ℕ) : List (Row d n) :=
  rows.filter (fun r => decide ((r.1 i : ℕ) < t))

/-- Rows sent to the right branch by split `(i, t)`. -/
def rightRows (rows : List (Row d n)) (i : Fin d) (t : ℕ) : List (Row d n) :=
  rows.filter (fun r => ! decide ((r.1 i : ℕ) < t))

/-- Within-children sum of squared errors of a candidate split. -/
def splitSSE (rows : List (Row d n)) (i : Fin d) (t : ℕ) : ℚ :=
  listSSE ((leftRows rows i t).map Prod.snd) +
    listSSE ((rightRows rows i t).map Prod.snd)

/-- All candidate axis-aligned splits: any hyperparameter `i` and any interior
cell boundary `t` with `1 ≤ t ≤ n i - 1` (spec section 4.1). -/
def splitCandidates (d : ℕ) (n : Fin d → ℕ) : List (Fin d × ℕ) :=
  (List.finRange d).flatMap (fun i => ((List.range (n i)).drop 1).map (fun t => (i, t)))

/-- Modelled from the spec (section 4.1): candidate splits that leave both
children nonempty and strictly reduce the within-leaf sum of squared errors
("recurse until ... no variance-reducing split exists" with minimum one
sample per leaf). -/
def validSplits (rows : List (Row d n)) : List (Fin d × ℕ) :=
  (splitCandidates d n).filter (fun c =>
    !(leftRows rows c.1 c.2).isEmpty && !(rightRows rows c.1 c.2).isEmpty &&
      decide (splitSSE rows c.1 c.2 < listSSE (rows.map Prod.snd)))

/-- Modelled from the spec (section 4.1): the split minimizing the
within-leaf variance of the target among the valid candidates, if any. -/
def bestSplit (rows : List (Row d n)) : Option (Fin d × ℕ) :=
  (validSplits rows).argmin (fun c => splitSSE rows c.1 c.2)

/-- Modelled from the spec (section 4.1): grow one tree by recursive
axis-aligned partitioning, picking the variance-minimizing split and stopping
when no variance-reducing split exists (or the fuel, a depth bound, runs
out); a leaf predicts the mean objective of its training rows. -/
def buildTree : ℕ → List (Row d n) → STree d n
  | 0, rows => .leaf (listMean (rows.map Prod.snd))
  | fuel + 1, rows =>
    match bestSplit rows with
    | none => .leaf (listMean (rows.map Prod.snd))
    | some (i, t) =>
        .node i t (buildTree fuel (leftRows rows i t))
          (buildTree fuel (rightRows rows i t))

/-- Modelled from the spec (sections 4.1, 9): the explicit seeded
pseudo-random generator controlling all stochastic choices — a linear
congruential step on 31-bit state. -/
def lcg (s : ℕ) : ℕ := (1103515245 * s + 12345) % 2 ^ 31

/-- The `k`-th state of the seeded generator stream. -/
def lcgStream (seed : ℕ) (k : ℕ) : ℕ := lcg^[k + 1] seed

/-- Modelled from the spec (section 4.1): the bootstrap resample of the
training rows used by tree `k`, drawn with replacement by the seeded
generator. -/
def bootstrap (rows : List (Row d n)) (seed k : ℕ) : List (Row d n) :=
  match rows with
  | [] => []
  | r0 :: _ =>
      (List.range rows.length).map (fun j =>
        rows.getD ((lcgStream seed (k * rows.length + j) / 2 ^ 16) %
          rows.length) r0)

/-- Modelled from the spec (section 4.1): `fit(observations, n_trees, seed)`
grows `n_trees` trees, each from an independent seeded bootstrap resample of
the rows. -/
def fit (rows : List (Row d n)) (nTrees seed : ℕ) : List (STree d n) :=
  (List.range nTrees).map (fun k => buildTree rows.length (bootstrap rows seed k))

/-! ## Importance cache / reporter (the `fANOVA` evaluator class) -/

/-- Modelled from the spec (section 7): the error taxonomy of the evaluator. -/
inductive CalcError : Type where
  | InvalidInput : CalcError
  | UnknownHyperparameter : CalcError
  | NotCalculated : CalcError
deriving DecidableEq

/-- The per-tree importance fractions of hyperparameter `i` across a forest. -/
def treeFracs (forest : List (STree d n)) (i : Fin d) : List ℚ :=
  forest.map (fun t => importanceFrac t.eval i)

/-- Population variance of a list of rationals (`0` on the empty list); the
across-tree standard deviation is represented by this, its square. -/
def listPopVar (l : List ℚ) : ℚ := listSSE l / (l.length : ℚ)

/-- Modelled from the spec (section 4.2): `decompose` aggregates, for each
single hyperparameter, the mean and across-tree dispersion (the squared
standard deviation) of its importance fraction over the forest's trees. -/
def decompose (forest : List (STree d n)) : Fin d → ℚ × ℚ :=
  fun i => (listMean (treeFracs forest i), listPopVar (treeFracs forest i))

/-- Modelled from the spec (sections 2, 4.3): the evaluator instance — the
run's hyperparameter names plus at most one cached (Forest, ImportanceResult)
pair, replaced wholesale on recomputation. -/
structure Evaluator (d : ℕ) (n : Fin d → ℕ) : Type where
  names : Fin d → String
  cache : Option (List (STree d n) × (Fin d → ℚ × ℚ))

/-- Modelled from the spec (section 3): an observation pairs an encoded
configuration with an objective value that may be the non-finite
"failed / not evaluated" marker (`none`). -/
abbrev Observation (d : ℕ) (n : Fin d → ℕ) : Type := GridPoint d n × Option ℚ

/-- Rows with a finite objective value; failed rows are excluded from
surrogate fitting (spec section 3). -/
def finiteRows (obs : List (Observation d n)) : List (Row d n) :=
  obs.filterMap (fun o => o.2.map (fun y => (o.1, y)))

/-- Modelled from the spec (sections 4.3, 7): `calculate` validates its
input (empty observation set, `n_trees < 1`, or all-failed objective values
fail fast before fitting with `InvalidInput`), then fits the forest,
decomposes it, and replaces the cached state wholesale.  A failing call
returns the evaluator unchanged together with the raised error. -/
def calculate (ev : Evaluator d n) (obs : List (Observation d n))
    (nTrees seed : ℕ) : Evaluator d n × Option CalcError :=
  if obs.isEmpty then (ev, some .InvalidInput)
  else if nTrees < 1 then (ev, some .InvalidInput)
  else
    let rows := finiteRows obs
    if rows.isEmpty then (ev, some .InvalidInput)
    else
      let forest := fit rows nTrees seed
      ({ ev with cache := some (forest, decompose forest) }, none)

instance evaluatorDecEq (d : ℕ) (n : Fin d → ℕ) : DecidableEq (Evaluator d n) :=
  fun a b =>
    decidable_of_iff (a.names = b.names ∧ a.cache = b.cache) (by
      cases a
      cases b
      simp [Evaluator.mk.injEq])

/-- The index of a hyperparameter name in the run's search space, if any. -/
def findName (ev : Evaluator d n) (s : String) : Option (Fin d) :=
  (List.finRange d).find? (fun i => ev.names i = s)

/-- Look up the cached importance pairs of the requested names, failing with
`UnknownHyperparameter` on a name outside the search space. -/
def lookupImportances (ev : Evaluator d n) (res : Fin d → ℚ × ℚ) :
    List String → Except CalcError (List (String × (ℚ × ℚ)))
  | [] => .ok []
  | s :: rest =>
    match findName ev s with
    | none => .error .UnknownHyperparameter
    | some i =>
      match lookupImportances ev res rest with
      | .error e => .error e
      | .ok out => .ok ((s, res i) :: out)

instance exceptDecEq {ε α : Type} [DecidableEq ε] [DecidableEq α] :
    DecidableEq (Except ε α) := fun a b =>
  match a, b with
  | .ok x, .ok y =>
      if h : x = y then .isTrue (by rw [h])
      else .isFalse (fun hc => h (Except.ok.inj hc))
  | .error e, .error f =>
      if h : e = f then .isTrue (by rw [h])
      else .isFalse (fun hc => h (Except.error.inj hc))
  | .ok _, .error _ => .isFalse (fun hc => Except.noConfusion hc)
  | .error _, .ok _ => .isFalse (fun hc => Except.noConfusion hc)

/-- Modelled from the spec (section 4.3): `get_importances(hp_names)`
returns, for each requested name, its (mean, std) pair from the most recent
calculation; before any successful `calculate` it fails with
`NotCalculated`. -/
def getImportances (ev : Evaluator d n) (hpNames : List String) :
    Except CalcError (List (String × (ℚ × ℚ))) :=
  match ev.cache with
  | none => .error .NotCalculated
  | some (_, res) => lookupImportances ev res hpNames

/-! ## The `ParallelCoordinates` plugin (embedded from
`deepcave/plugins/objective/parallel_coordinates.py`) -/

/-- From `ParallelCoordinates.process`: the per-name mean importances,
`importances = {u: v[0] for u, v in importances_dict.items()}`. -/
def meanImportances (impsDict : List (String × (ℚ × ℚ))) : List (String × ℚ) :=
  impsDict.map (fun uv => (uv.1, uv.2.1))

/-- From `ParallelCoordinates.process`:
`sorted(importances, key=lambda key: importances[key], reverse=True)` —
a stable sort of the mapping by descending mean importance.  Python's
`sorted` is a stable sort; it is embedded as the stable `insertionSort`
with the reversed comparison. -/
def sortedImportances (impsDict : List (String × (ℚ × ℚ))) : List (String × ℚ) :=
  List.insertionSort (fun p q => q.2 ≤ p.2) (meanImportances impsDict)

/-- From `ParallelCoordinates.process`: the `important_hp_names` list. -/
def importantHpNames (impsDict : List (String × (ℚ × ℚ))) : List String :=
  (sortedImportances impsDict).map Prod.fst

/-- An objective value of a data row in `load_outputs`; `none` is NaN. -/
abbrev ObjValue : Type := Option ℚ

/-- From `ParallelCoordinates.load_outputs`: `np.isnan(value)`. -/
def isnan (v : ObjValue) : Bool := v.isNone

/-- From `ParallelCoordinates.load_outputs`, the objective-value loop:
`b = np.isnan(value); if not show_unsuccessful: b = not b;`
`if b: objective_values += [value]`. -/
def shownValues (showUnsuccessful : Bool) : List ObjValue → List ObjValue
  | [] => []
  | v :: rest =>
      let b := isnan v
      let b2 := if !showUnsuccessful then !b else b
      if b2 then v :: shownValues showUnsuccessful rest
      else shownValues showUnsuccessful rest

/-- From `ParallelCoordinates.load_outputs`, the per-hyperparameter loop over
`zip(df[hp_name].values, df[objective_name].values)`: keep the
hyperparameter value of a row by the NaN-ness of its objective value. -/
def shownHpValues (showUnsuccessful : Bool) : List (ℚ × ObjValue) → List ℚ
  | [] => []
  | r :: rest =>
      let b := isnan r.2
      let b2 := if !showUnsuccessful then !b else b
      if b2 then r.1 :: shownHpValues showUnsuccessful rest
      else shownHpValues showUnsuccessful rest

/-! ## The run's configuration encoding (`minimalexample.py`) -/

/-- Modelled from the spec (section 3): a hyperparameter of the search space
with its fixed, finite encoded numeric range. -/
structure SpecHyperparameter : Type where
  lower : ℚ
  upper : ℚ

/-- Modelled from the spec (section 3): the encoded numeric value of one raw
hyperparameter value — its position inside the encoded range. -/
def encodeValue (hp : SpecHyperparameter) (v : ℚ) : ℚ :=
  (v - hp.lower) / (hp.upper - hp.lower)

/-- Modelled from the spec (sections 2, 6): the run object of the Provider
abstraction, holding the search space. -/
structure SpecRun : Type where
  space : List SpecHyperparameter

/-- Modelled from the spec (section 3): a configuration — raw values aligned
to the hyperparameter ordering of the run's search space. -/
structure SpecConfiguration : Type where
  raw : List ℚ

/-- Modelled from the spec (section 3): `Configuration.get_array()` — the
configuration's own fixed-length encoded numeric vector, aligned to the
hyperparameter ordering. -/
def SpecConfiguration.get_array (space : List SpecHyperparameter)
    (c : SpecConfiguration) : List ℚ :=
  match space, c.raw with
  | [], _ => []
  | _ :: _, [] => []
  | hp :: hps, v :: vs => encodeValue hp v :: get_array hps ⟨vs⟩

/-- Modelled from the spec (sections 2, 6): `run.encode_config` — the
Provider converts a configuration into one numeric design-matrix row using
the same single encoding of section 3. -/
def SpecRun.encode_config (run : SpecRun) (c : SpecConfiguration) : List ℚ :=
  List.zipWith encodeValue run.space c.raw

/-! ## Concrete example instances used by the closed theorems -/

/-- Two hyperparameters, each with two encoded cells. -/
abbrev exN : Fin 2 → ℕ := fun _ => 2

/-- A grid point of the 2 × 2 example grid. -/
def exPoint (a b : Fin 2) : GridPoint 2 exN := fun i => if i = 0 then a else b

/-- A small non-degenerate observation set: the objective depends strongly
on the first hyperparameter and weakly on the second. -/
def exObs : List (Observation 2 exN) :=
  [(exPoint 0 0, some 0), (exPoint 0 1, some 1),
    (exPoint 1 0, some 10), (exPoint 1 1, some 11)]

/-- An observation set with a constant objective value `7`. -/
def exObsConst : List (Observation 2 exN) :=
  [(exPoint 0 0, some 7), (exPoint 0 1, some 7),
    (exPoint 1 0, some 7), (exPoint 1 1, some 7)]

/-- A fresh evaluator for the example run (no calculation cached yet). -/
def exEv : Evaluator 2 exN :=
  ⟨fun i => if i = 0 then "alpha" else "beta", none⟩

theorem fiber_card (i : Fin d) (a : Fin (n i)) :
    (fiber (n := n) i a).card = Fintype.card (RestPoint n i) := by
  rw [fiber, ← Fintype.card_subtype]
  exact Fintype.card_congr (fiberEquivRest i a)

theorem gridSize_eq_mul (i : Fin d) :
    gridSize d n = n i * Fintype.card (RestPoint n i) := by
  rw [gridSize, Fintype.card_congr (Equiv.piSplitAt i (fun j => Fin (n j))),
    Fintype.card_prod, Fintype.card_fin]

theorem restCard_ne_zero (hn : ∀ j, n j ≠ 0) (i : Fin d) :
    Fintype.card (RestPoint n i) ≠ 0 := by
  have : Nonempty (RestPoint n i) :=
    ⟨fun j => ⟨0, Nat.pos_of_ne_zero (hn j.1)⟩⟩
  exact Fintype.card_ne_zero

theorem gridSize_ne_zero (hn : ∀ j, n j ≠ 0) : gridSize d n ≠ 0 := by
  have : Nonempty (GridPoint d n) :=
    ⟨fun j => ⟨0, Nat.pos_of_ne_zero (hn j)⟩⟩
  exact Fintype.card_ne_zero

/-- Summing fiberwise over the cells of coordinate `i` recovers the total
sum over the grid. -/
theorem sum_fiber_total (i : Fin d) (g : GridPoint d n → ℚ) :
    ∑ a, ∑ x ∈ fiber i a, g x = ∑ x, g x := by
  have h := Finset.sum_fiberwise_eq_sum_filter (univ : Finset (GridPoint d n))
    (univ : Finset (Fin (n i))) (fun x => x i) g
  simpa [fiber] using h

/-- A function of coordinate `i` sums over the grid to the count of the
remaining grid times its own sum. -/
theorem sum_comp_coord (i : Fin d) (φ : Fin (n i) → ℚ) :
    ∑ x : GridPoint d n, φ (x i) =
      (Fintype.card (RestPoint n i) : ℚ) * ∑ a, φ a := by
  have h := Equiv.sum_comp (Equiv.piSplitAt i (fun j => Fin (n j))).symm
    (fun x : GridPoint d n => φ (x i))
  rw [← h]
  have h2 : ∀ p : Fin (n i) × RestPoint n i,
      φ (((Equiv.piSplitAt i (fun j => Fin (n j))).symm p) i) = φ p.1 := by
    intro p
    congr 1
    simp [Equiv.piSplitAt]
  rw [Finset.sum_congr rfl (fun p _ => h2 p), Fintype.sum_prod_type]
  have h4 : ∀ a : Fin (n i), (∑ _y : RestPoint n i, φ a) =
      (Fintype.card (RestPoint n i) : ℚ) * φ a := by
    intro a
    rw [Finset.sum_const, nsmul_eq_mul]
    rfl
  rw [Finset.sum_congr rfl (fun a _ => h4 a), ← Finset.mul_sum]

/-- Weighting a fiberwise-constant factor against an arbitrary function. -/
theorem sum_mul_fiber (i : Fin d) (φ : Fin (n i) → ℚ) (g : GridPoint d n → ℚ) :
    ∑ x : GridPoint d n, φ (x i) * g x =
      ∑ a, φ a * ∑ x ∈ fiber i a, g x := by
  rw [← sum_fiber_total i (fun x => φ (x i) * g x)]
  refine Finset.sum_congr rfl (fun a _ => ?_)
  rw [Finset.mul_sum]
  refine Finset.sum_congr rfl (fun x hx => ?_)
  have hxa : x i = a := by simpa [fiber] using hx
  rw [hxa]

/-- Products of functions of two distinct coordinates decouple; when one
factor sums to zero the whole sum vanishes. -/
theorem sum_cross_zero (i j : Fin d) (hij : j ≠ i) (φ : Fin (n i) → ℚ)
    (ψ : Fin (n j) → ℚ) (hφ : ∑ a, φ a = 0) :
    ∑ x : GridPoint d n, φ (x i) * ψ (x j) = 0 := by
  have h := Equiv.sum_comp (Equiv.piSplitAt i (fun k => Fin (n k))).symm
    (fun x : GridPoint d n => φ (x i) * ψ (x j))
  rw [← h]
  have h2 : ∀ p : Fin (n i) × RestPoint n i,
      (fun x : GridPoint d n => φ (x i) * ψ (x j))
        ((Equiv.piSplitAt i (fun k => Fin (n k))).symm p) =
      φ p.1 * ψ (p.2 ⟨j, hij⟩) := by
    intro p
    simp [Equiv.piSplitAt, hij]
  rw [Finset.sum_congr rfl (fun p _ => h2 p), Fintype.sum_prod_type]
  have h3 : ∀ a : Fin (n i), ∑ y : RestPoint n i, φ a * ψ (y ⟨j, hij⟩) =
      φ a * ∑ y : RestPoint n i, ψ (y ⟨j, hij⟩) := fun a => by
    rw [Finset.mul_sum]
  rw [Finset.sum_congr rfl (fun a _ => h3 a), ← Finset.sum_mul, hφ, zero_mul]

theorem sum_centered_zero (hn : ∀ j, n j ≠ 0) (f : GridPoint d n → ℚ) :
    ∑ x : GridPoint d n, (f x - gridMean f) = 0 := by
  have hN : (gridSize d n : ℚ) ≠ 0 := by
    exact_mod_cast gridSize_ne_zero hn
  have hcard : ((univ : Finset (GridPoint d n)).card : ℚ) = (gridSize d n : ℚ) := rfl
  rw [Finset.sum_sub_distrib, Finset.sum_const, nsmul_eq_mul, hcard, gridMean]
  field_simp

theorem sum_centeredFiberSum_zero (hn : ∀ j, n j ≠ 0) (f : GridPoint d n → ℚ)
    (i : Fin d) : ∑ a, centeredFiberSum f i a = 0 := by
  have h : ∑ a, centeredFiberSum f i a =
      ∑ x : GridPoint d n, (f x - gridMean f) :=
    sum_fiber_total i (fun x => f x - gridMean f)
  rw [h, sum_centered_zero hn f]

theorem centeredFiberSum_cross (f : GridPoint d n → ℚ) (i : Fin d) :
    ∑ x : GridPoint d n, centeredFiberSum f i (x i) * (f x - gridMean f)
      = ∑ a, centeredFiberSum f i a ^ 2 := by
  rw [sum_mul_fiber i (centeredFiberSum f i) (fun x => f x - gridMean f)]
  refine Finset.sum_congr rfl (fun a _ => ?_)
  rw [sq]
  rfl

theorem centeredFiberSum_diag (f : GridPoint d n → ℚ) (i : Fin d) :
    ∑ x : GridPoint d n, centeredFiberSum f i (x i) ^ 2
      = (Fintype.card (RestPoint n i) : ℚ) * ∑ a, centeredFiberSum f i a ^ 2 :=
  sum_comp_coord i (fun a => centeredFiberSum f i a ^ 2)

theorem projection_expansion (hn : ∀ j, n j ≠ 0) (f : GridPoint d n → ℚ) :
    ∑ x : GridPoint d n, ((f x - gridMean f) -
        ∑ i, centeredFiberSum f i (x i) / (Fintype.card (RestPoint n i) : ℚ)) ^ 2
      = (∑ x : GridPoint d n, (f x - gridMean f) ^ 2)
        - ∑ i, mainEffectEnergy f i := by
  have hP : ∀ i : Fin d, ((Fintype.card (RestPoint n i) : ℚ)) ≠ 0 := fun i => by
    exact_mod_cast restCard_ne_zero hn i
  have e1 : ∀ x : GridPoint d n,
      ((f x - gridMean f) -
          ∑ i, centeredFiberSum f i (x i) / (Fintype.card (RestPoint n i) : ℚ)) ^ 2
        = (f x - gridMean f) ^ 2
          - 2 * ((f x - gridMean f) *
              ∑ i, centeredFiberSum f i (x i) / (Fintype.card (RestPoint n i) : ℚ))
          + (∑ i, centeredFiberSum f i (x i) /
              (Fintype.card (RestPoint n i) : ℚ)) ^ 2 := fun x => by ring
  rw [Finset.sum_congr rfl (fun x _ => e1 x), Finset.sum_add_distrib,
    Finset.sum_sub_distrib, ← Finset.mul_sum]
  have cross : ∑ x : GridPoint d n, (f x - gridMean f) *
      (∑ i, centeredFiberSum f i (x i) / (Fintype.card (RestPoint n i) : ℚ))
      = ∑ i, mainEffectEnergy f i := by
    have h1 : ∀ x : GridPoint d n, (f x - gridMean f) *
        (∑ i, centeredFiberSum f i (x i) / (Fintype.card (RestPoint n i) : ℚ))
        = ∑ i, (centeredFiberSum f i (x i) * (f x - gridMean f)) /
            (Fintype.card (RestPoint n i) : ℚ) := fun x => by
      rw [Finset.mul_sum]
      exact Finset.sum_congr rfl (fun i _ => by ring)
    rw [Finset.sum_congr rfl (fun x _ => h1 x), Finset.sum_comm]
    refine Finset.sum_congr rfl (fun i _ => ?_)
    rw [← Finset.sum_div, centeredFiberSum_cross f i, mainEffectEnergy]
  have sqterm : ∑ x : GridPoint d n,
      (∑ i, centeredFiberSum f i (x i) / (Fintype.card (RestPoint n i) : ℚ)) ^ 2
      = ∑ i, mainEffectEnergy f i := by
    have h2 : ∀ x : GridPoint d n,
        (∑ i, centeredFiberSum f i (x i) / (Fintype.card (RestPoint n i) : ℚ)) ^ 2
        = ∑ i, ∑ j, (centeredFiberSum f i (x i) * centeredFiberSum f j (x j)) /
            ((Fintype.card (RestPoint n i) : ℚ) *
              (Fintype.card (RestPoint n j) : ℚ)) := fun x => by
      rw [sq, Finset.sum_mul_sum]
      exact Finset.sum_congr rfl (fun i _ =>
        Finset.sum_congr rfl (fun j _ => by rw [div_mul_div_comm]))
    rw [Finset.sum_congr rfl (fun x _ => h2 x), Finset.sum_comm]
    refine Finset.sum_congr rfl (fun i _ => ?_)
    rw [Finset.sum_comm]
    rw [Finset.sum_eq_single_of_mem i (mem_univ i) ?side]
    case side =>
      intro j _ hji
      rw [← Finset.sum_div,
        sum_cross_zero i j hji (centeredFiberSum f i) (centeredFiberSum f j)
          (sum_centeredFiberSum_zero hn f i), zero_div]
    have h3 : ∀ x : GridPoint d n,
        centeredFiberSum f i (x i) * centeredFiberSum f i (x i)
        = centeredFiberSum f i (x i) ^ 2 := fun x => by ring
    rw [← Finset.sum_div, Finset.sum_congr rfl (fun x _ => h3 x),
      centeredFiberSum_diag f i, mul_div_mul_left _ _ (hP i), mainEffectEnergy]
  rw [cross, sqterm]
  ring

theorem sum_mainEffectEnergy_le (hn : ∀ j, n j ≠ 0) (f : GridPoint d n → ℚ) :
    ∑ i, mainEffectEnergy f i ≤ ∑ x : GridPoint d n, (f x - gridMean f) ^ 2 := by
  have key : (0 : ℚ) ≤ ∑ x : GridPoint d n, ((f x - gridMean f) -
      ∑ i, centeredFiberSum f i (x i) / (Fintype.card (RestPoint n i) : ℚ)) ^ 2 :=
    Finset.sum_nonneg (fun x _ => sq_nonneg _)
  have h := projection_expansion hn f
  linarith

theorem marginal_sub_mean (hn : ∀ j, n j ≠ 0) (f : GridPoint d n → ℚ)
    (i : Fin d) (a : Fin (n i)) :
    marginalMean f i a - gridMean f =
      centeredFiberSum f i a / (Fintype.card (RestPoint n i) : ℚ) := by
  have hP : ((Fintype.card (RestPoint n i) : ℚ)) ≠ 0 := by
    exact_mod_cast restCard_ne_zero hn i
  have hc : ((fiber (n := n) i a).card : ℚ) = (Fintype.card (RestPoint n i) : ℚ) := by
    exact_mod_cast congrArg Nat.cast (fiber_card i a)
  rw [marginalMean, centeredFiberSum, Finset.sum_sub_distrib, Finset.sum_const,
    nsmul_eq_mul, hc, sub_div, mul_div_cancel_left₀ _ hP]

theorem marginalVariance_eq (hn : ∀ j, n j ≠ 0) (f : GridPoint d n → ℚ)
    (i : Fin d) :
    marginalVariance f i = mainEffectEnergy f i / (gridSize d n : ℚ) := by
  have hP : ((Fintype.card (RestPoint n i) : ℚ)) ≠ 0 := by
    exact_mod_cast restCard_ne_zero hn i
  have hni : ((n i : ℚ)) ≠ 0 := by exact_mod_cast hn i
  have hNeq : (gridSize d n : ℚ) =
      (n i : ℚ) * (Fintype.card (RestPoint n i) : ℚ) := by
    exact_mod_cast congrArg Nat.cast (gridSize_eq_mul (n := n) i)
  rw [marginalVariance,
    Finset.sum_congr rfl (fun a _ => by rw [marginal_sub_mean hn f i a]),
    mainEffectEnergy, hNeq]
  rw [Finset.sum_congr rfl (fun a _ => div_pow (centeredFiberSum f i a) _ 2),
    ← Finset.sum_div]
  field_simp
  ring

theorem totalVariance_nonneg (f : GridPoint d n → ℚ) : 0 ≤ totalVariance f :=
  div_nonneg (Finset.sum_nonneg fun x _ => sq_nonneg _) (Nat.cast_nonneg _)

theorem marginalVariance_nonneg (f : GridPoint d n → ℚ) (i : Fin d) :
    0 ≤ marginalVariance f i :=
  div_nonneg (Finset.sum_nonneg fun a _ => sq_nonneg _) (Nat.cast_nonneg _)

theorem nzero_of_totalVariance_ne_zero (f : GridPoint d n → ℚ)
    (hV : totalVariance f ≠ 0) (j : Fin d) : n j ≠ 0 := by
  intro h0
  apply hV
  haveI : IsEmpty (GridPoint d n) :=
    ⟨fun x => absurd (x j).isLt (by simp [h0])⟩
  rw [totalVariance, Finset.univ_eq_empty, Finset.sum_empty, zero_div]

theorem sum_marginalVariance_le (hn : ∀ j, n j ≠ 0) (f : GridPoint d n → ℚ) :
    ∑ i, marginalVariance f i ≤ totalVariance f := by
  have hN : (0 : ℚ) < (gridSize d n : ℚ) := by
    exact_mod_cast Nat.pos_of_ne_zero (gridSize_ne_zero hn)
  rw [Finset.sum_congr rfl (fun i _ => marginalVariance_eq hn f i),
    ← Finset.sum_div, totalVariance]
  exact (div_le_div_right hN).mpr (sum_mainEffectEnergy_le hn f)

/-! ## The normalization property (claim C5) -/

/-- `C5`: for every surrogate tree and every single hyperparameter, the
computed importance fraction lies in `[0, 1]`, and the sum of all
single-hyperparameter importance fractions within one tree is at most `1`. -/
theorem importanceFrac_normalized (d : ℕ) (n : Fin d → ℕ) (t : STree d n) :
    (∀ i, 0 ≤ importanceFrac t.eval i ∧ importanceFrac t.eval i ≤ 1) ∧
      (∑ i, importanceFrac t.eval i) ≤ 1 := by
  by_cases hV : totalVariance t.eval = 0
  · constructor
    · intro i
      rw [importanceFrac, if_pos hV]
      exact ⟨le_refl 0, zero_le_one⟩
    · rw [Finset.sum_congr rfl
        (fun i _ => by rw [importanceFrac, if_pos hV]), Finset.sum_const,
        smul_zero]
      exact zero_le_one
  · have hn : ∀ j, n j ≠ 0 := nzero_of_totalVariance_ne_zero t.eval hV
    have hVpos : 0 < totalVariance t.eval :=
      lt_of_le_of_ne (totalVariance_nonneg t.eval) (Ne.symm hV)
    have hsum := sum_marginalVariance_le hn t.eval
    have hfrac : ∀ i, importanceFrac t.eval i =
        marginalVariance t.eval i / totalVariance t.eval := fun i => by
      rw [importanceFrac, if_neg hV]
    constructor
    · intro i
      constructor
      · rw [hfrac i]
        exact div_nonneg (marginalVariance_nonneg t.eval i) hVpos.le
      · rw [hfrac i, div_le_one hVpos]
        calc marginalVariance t.eval i
            ≤ ∑ j, marginalVariance t.eval j :=
              Finset.single_le_sum
                (fun j _ => marginalVariance_nonneg t.eval j) (mem_univ i)
          _ ≤ totalVariance t.eval := hsum
    · rw [Finset.sum_congr rfl (fun i _ => hfrac i), ← Finset.sum_div,
        div_le_one hVpos]
      exact hsum

/-! ## Constant lists, constant trees -/

theorem list_sum_const {c : ℚ} : ∀ {l : List ℚ},
    (∀ y ∈ l, y = c) → l.sum = (l.length : ℚ) * c := by
  intro l
  induction l with
  | nil => simp
  | cons a tl ih =>
      intro h
      have ha : a = c := h a (List.mem_cons_self a tl)
      have htl := ih (fun y hy => h y (List.mem_cons_of_mem a hy))
      simp only [List.sum_cons, List.length_cons, htl, ha]
      push_cast
      ring

theorem listMean_const {c : ℚ} {l : List ℚ} (hne : l ≠ [])
    (h : ∀ y ∈ l, y = c) : listMean l = c := by
  have hlen : ((l.length : ℚ)) ≠ 0 := by
    have : l.length ≠ 0 := by
      simpa [List.length_eq_zero] using hne
    exact_mod_cast this
  rw [listMean, list_sum_const h, mul_comm, mul_div_assoc, div_self hlen,
    mul_one]

theorem bestSplit_nonempty {rows : List (Row d n)} {i : Fin d} {t : ℕ}
    (h : bestSplit rows = some (i, t)) :
    leftRows rows i t ≠ [] ∧ rightRows rows i t ≠ [] := by
  have hmem : (i, t) ∈ validSplits rows := List.argmin_mem h
  rw [validSplits, List.mem_filter] at hmem
  have hb := hmem.2
  simp only [Bool.and_eq_true, Bool.not_eq_true'] at hb
  have hl : (leftRows rows i t).isEmpty = false := hb.1.1
  have hr2 : (rightRows rows i t).isEmpty = false := hb.1.2
  constructor
  · intro hnil
    rw [hnil] at hl
    simp at hl
  · intro hnil
    rw [hnil] at hr2
    simp at hr2

theorem buildTree_const {c : ℚ} : ∀ (fuel : ℕ) (rows : List (Row d n)),
    rows ≠ [] → (∀ r ∈ rows, r.2 = c) →
    ∀ x, (buildTree fuel rows).eval x = c := by
  intro fuel
  induction fuel with
  | zero =>
      intro rows hne hc x
      rw [buildTree, STree.eval]
      refine listMean_const ?_ ?_
      · simpa using hne
      · intro y hy
        rcases List.mem_map.mp hy with ⟨r, hr, rfl⟩
        exact hc r hr
  | succ fuel ih =>
      intro rows hne hc x
      rw [buildTree]
      rcases hsplit : bestSplit rows with _ | ⟨i, t⟩
      · rw [STree.eval]
        refine listMean_const ?_ ?_
        · simpa using hne
        · intro y hy
          rcases List.mem_map.mp hy with ⟨r, hr, rfl⟩
          exact hc r hr
      · obtain ⟨hl, hr⟩ := bestSplit_nonempty hsplit
        rw [STree.eval]
        by_cases hx : ((x i : ℕ) < t)
        · rw [if_pos hx]
          exact ih (leftRows rows i t) hl
            (fun r hmem => hc r (List.mem_of_mem_filter hmem)) x
        · rw [if_neg hx]
          exact ih (rightRows rows i t) hr
            (fun r hmem => hc r (List.mem_of_mem_filter hmem)) x

theorem bootstrap_mem {rows : List (Row d n)} {seed k : ℕ} {r : Row d n}
    (h : r ∈ bootstrap rows seed k) : r ∈ rows := by
  match rows with
  | [] => simpa [bootstrap] using h
  | r0 :: tl =>
      rw [bootstrap] at h
      rcases List.mem_map.mp h with ⟨j, _, rfl⟩
      rcases lt_or_ge ((lcgStream seed (k * (r0 :: tl).length + j) / 2 ^ 16) %
          (r0 :: tl).length) (r0 :: tl).length with hlt | hge
      · rw [List.getD_eq_getElem _ _ hlt]
        exact List.getElem_mem hlt
      · rw [List.getD_eq_default _ _ hge]
        exact List.mem_cons_self r0 tl

theorem bootstrap_ne_nil {rows : List (Row d n)} (hne : rows ≠ [])
    (seed k : ℕ) : bootstrap rows seed k ≠ [] := by
  match rows with
  | [] => exact absurd rfl hne
  | r0 :: tl =>
      rw [bootstrap]
      simp [List.range_succ]

/-- Constant surrogates have zero importance everywhere: the degenerate
`V_total = 0` branch yields `0` rather than a division error. -/
theorem importanceFrac_of_const (f : GridPoint d n → ℚ) (c : ℚ)
    (hf : ∀ x, f x = c) (i : Fin d) : importanceFrac f i = 0 := by
  have hnum : ∑ x : GridPoint d n, (f x - gridMean f) ^ 2 = 0 := by
    by_cases hN : Fintype.card (GridPoint d n) = 0
    · haveI : IsEmpty (GridPoint d n) := Fintype.card_eq_zero_iff.mp hN
      rw [Finset.univ_eq_empty, Finset.sum_empty]
    · have hNq : ((gridSize d n : ℚ)) ≠ 0 := by
        exact_mod_cast hN
      have hmean : gridMean f = c := by
        have hcard : ((univ : Finset (GridPoint d n)).card : ℚ) =
            (gridSize d n : ℚ) := rfl
        rw [gridMean, Finset.sum_congr rfl (fun x _ => hf x),
          Finset.sum_const, nsmul_eq_mul, hcard, mul_comm, mul_div_assoc,
          div_self hNq, mul_one]
      refine Finset.sum_eq_zero (fun x _ => ?_)
      rw [hf x, hmean]
      ring
  have hV : totalVariance f = 0 := by
    rw [totalVariance, hnum, zero_div]
  rw [importanceFrac, if_pos hV]

/-! ## Analysis of `calculate` -/

theorem calculate_conditions {ev ev' : Evaluator d n}
    {obs : List (Observation d n)} {nTrees seed : ℕ}
    (h : calculate ev obs nTrees seed = (ev', none)) :
    obs.isEmpty = false ∧ ¬nTrees < 1 ∧ (finiteRows obs).isEmpty = false ∧
      ev' = { ev with cache := some (fit (finiteRows obs) nTrees seed,
        decompose (fit (finiteRows obs) nTrees seed)) } := by
  simp only [calculate] at h
  split_ifs at h with h1 h2 h3
  · exact Option.noConfusion (congrArg Prod.snd h)
  · exact Option.noConfusion (congrArg Prod.snd h)
  · exact Option.noConfusion (congrArg Prod.snd h)
  · injection h with ha hb
    exact ⟨Bool.not_eq_true _ ▸ h1, h2, Bool.not_eq_true _ ▸ h3, ha.symm⟩

/-- `C1`: determinism of the evaluator — for a fixed observation set,
`n_trees` and seed, a second `calculate` invocation succeeds as well and a
subsequent `get_importances` returns the identical (mean, std) pairs. -/
theorem calculate_deterministic (ev ev1 ev2 : Evaluator d n)
    (obs : List (Observation d n)) (nTrees seed : ℕ) (e2 : Option CalcError)
    (hpNames : List String)
    (h1 : calculate ev obs nTrees seed = (ev1, none))
    (h2 : calculate ev1 obs nTrees seed = (ev2, e2)) :
    e2 = none ∧ getImportances ev2 hpNames = getImportances ev1 hpNames := by
  obtain ⟨c1, c2, c3, he1⟩ := calculate_conditions h1
  have h2' : calculate ev1 obs nTrees seed =
      ({ ev1 with cache := some (fit (finiteRows obs) nTrees seed,
        decompose (fit (finiteRows obs) nTrees seed)) }, none) := by
    simp only [calculate]
    rw [if_neg (by simp [c1]), if_neg c2, if_neg (by simp [c3])]
  rw [h2'] at h2
  injection h2 with ha hb
  refine ⟨hb.symm, ?_⟩
  rw [← ha, he1]

/-- `C1` witness: on the concrete example run both invocations succeed and
the reported importances agree. -/
theorem calculate_deterministic_witness :
    calculate exEv exObs 2 0 = ((calculate exEv exObs 2 0).1, none) ∧
      calculate (calculate exEv exObs 2 0).1 exObs 2 0 =
        ((calculate (calculate exEv exObs 2 0).1 exObs 2 0).1, none) ∧
      ((none : Option CalcError) = none ∧
        getImportances (calculate (calculate exEv exObs 2 0).1 exObs 2 0).1
            ["alpha", "beta"] =
          getImportances (calculate exEv exObs 2 0).1 ["alpha", "beta"]) := by
  have hsnd : (calculate exEv exObs 2 0).2 = none := by decide
  have h1 : calculate exEv exObs 2 0 = ((calculate exEv exObs 2 0).1, none) := by
    rw [← hsnd]
  have hsnd2 : (calculate (calculate exEv exObs 2 0).1 exObs 2 0).2 = none := by
    decide
  have h2 : calculate (calculate exEv exObs 2 0).1 exObs 2 0 =
      ((calculate (calculate exEv exObs 2 0).1 exObs 2 0).1, none) := by
    rw [← hsnd2]
  exact ⟨h1, h2, calculate_deterministic exEv (calculate exEv exObs 2 0).1
    (calculate (calculate exEv exObs 2 0).1 exObs 2 0).1 exObs 2 0 none
    ["alpha", "beta"] h1 h2⟩

/-- `C3`: `get_importances` on an evaluator that has no cached calculation
fails with `NotCalculated`; no importance values are returned. -/
theorem getImportances_before_calculate (d : ℕ) (n : Fin d → ℕ)
    (names : Fin d → String) (hpNames : List String) :
    getImportances (⟨names, none⟩ : Evaluator d n) hpNames =
      .error .NotCalculated := rfl

/-- `C4`: atomicity of `calculate` on error — whenever the call reports an
error, the evaluator (and hence its previously cached (Forest, Importance
Result) state, if any) is left completely unchanged. -/
theorem calculate_atomic (ev ev' : Evaluator d n)
    (obs : List (Observation d n)) (nTrees seed : ℕ) (e : CalcError)
    (h : calculate ev obs nTrees seed = (ev', some e)) : ev' = ev := by
  simp only [calculate] at h
  split_ifs at h
  · exact (congrArg Prod.fst h).symm
  · exact (congrArg Prod.fst h).symm
  · exact (congrArg Prod.fst h).symm
  · exact Option.noConfusion (congrArg Prod.snd h)

/-- `C4` witness: an empty observation set raises `InvalidInput` and leaves
the evaluator unchanged. -/
theorem calculate_atomic_witness :
    calculate exEv ([] : List (Observation 2 exN)) 2 0 =
        ((calculate exEv ([] : List (Observation 2 exN)) 2 0).1,
          some .InvalidInput) ∧
      (calculate exEv ([] : List (Observation 2 exN)) 2 0).1 = exEv :=
  ⟨by decide, calculate_atomic exEv _ [] 2 0 .InvalidInput (by decide)⟩

unseal Rat.add Rat.mul Rat.inv Rat.sub in
/-- `C2`: seed sensitivity — on the example run (same observations, same
`n_trees`), the two `calculate` calls with seed `0` and seed `42` both
succeed and return importances differing for at least one hyperparameter of
the non-degenerate two-hyperparameter search space. -/
theorem seed_sensitivity :
    (calculate exEv exObs 2 0).2 = none ∧
      (calculate exEv exObs 2 42).2 = none ∧
      getImportances (calculate exEv exObs 2 0).1 ["alpha", "beta"] ≠
        getImportances (calculate exEv exObs 2 42).1 ["alpha", "beta"] :=
  ⟨by decide, by decide, by decide⟩

/-- `C6`: constant-objective edge case — if every target value in the
observation set is the same value `c`, then after a successful `calculate`
every hyperparameter's importance is exactly `0` for every tree of the
cached forest (the degenerate `V_total = 0` branch, not a division error). -/
theorem constant_objective_zero_importance (ev ev' : Evaluator d n)
    (obs : List (Observation d n)) (nTrees seed : ℕ) (c : ℚ)
    (F : List (STree d n)) (R : Fin d → ℚ × ℚ)
    (hobs : ∀ o ∈ obs, o.2 = some c)
    (h : calculate ev obs nTrees seed = (ev', none))
    (hcache : ev'.cache = some (F, R)) :
    ∀ t ∈ F, ∀ i, importanceFrac t.eval i = 0 := by
  obtain ⟨-, -, c3, he⟩ := calculate_conditions h
  rw [he] at hcache
  have hpair := Option.some.inj hcache
  have hF : fit (finiteRows obs) nTrees seed = F := congrArg Prod.fst hpair
  intro t ht i
  rw [← hF, fit] at ht
  rcases List.mem_map.mp ht with ⟨k, -, rfl⟩
  have hrows_ne : finiteRows obs ≠ [] := by
    intro hnil
    rw [hnil] at c3
    simp at c3
  have hrow_c : ∀ r ∈ finiteRows obs, r.2 = c := by
    intro r hr
    rcases List.mem_filterMap.mp hr with ⟨o, ho, hmap⟩
    rw [hobs o ho, Option.map_some'] at hmap
    rw [← Option.some.inj hmap]
  exact importanceFrac_of_const _ c
    (buildTree_const _ _ (bootstrap_ne_nil hrows_ne seed k)
      (fun r hr => hrow_c r (bootstrap_mem hr))) i

unseal Rat.add Rat.mul Rat.inv Rat.sub in
/-- `C6` witness: the all-`7` observation set yields a forest whose every
tree assigns importance `0` to both hyperparameters. -/
theorem constant_objective_zero_importance_witness :
    (∀ o ∈ exObsConst, o.2 = some (7 : ℚ)) ∧
      calculate exEv exObsConst 1 0 = ((calculate exEv exObsConst 1 0).1, none) ∧
      (calculate exEv exObsConst 1 0).1.cache =
        some (fit (finiteRows exObsConst) 1 0,
          decompose (fit (finiteRows exObsConst) 1 0)) ∧
      ∀ t ∈ fit (finiteRows exObsConst) 1 0, ∀ i,
        importanceFrac t.eval i = 0 :=
  ⟨by decide, by decide, by decide,
    constant_objective_zero_importance exEv (calculate exEv exObsConst 1 0).1
      exObsConst 1 0 7
      (fit (finiteRows exObsConst) 1 0) (decompose (fit (finiteRows exObsConst) 1 0))
      (by decide) (by decide) (by decide)⟩

/-- `C7`: interface shape of `get_importances` — after a successful
`calculate`, requesting a list of valid hyperparameter names returns the
association list pairing each requested name, in order, with its cached
importance pair whose first component is the mean and whose second component
is the across-tree dispersion (the std, represented by its square) of the
per-tree importance fractions. -/
theorem getImportances_shape (ev ev' : Evaluator d n)
    (obs : List (Observation d n)) (nTrees seed : ℕ)
    (F : List (STree d n)) (R : Fin d → ℚ × ℚ) (hpNames : List String)
    (idx : String → Fin d)
    (h : calculate ev obs nTrees seed = (ev', none))
    (hcache : ev'.cache = some (F, R))
    (hidx : ∀ s ∈ hpNames, findName ev' s = some (idx s)) :
    getImportances ev' hpNames = .ok (hpNames.map (fun s =>
      (s, (listMean (treeFracs F (idx s)), listPopVar (treeFracs F (idx s)))))) := by
  obtain ⟨-, -, -, he⟩ := calculate_conditions h
  have hR : R = decompose F := by
    rw [he] at hcache
    have hpair := Option.some.inj hcache
    have hF : fit (finiteRows obs) nTrees seed = F := congrArg Prod.fst hpair
    have hR2 : decompose (fit (finiteRows obs) nTrees seed) = R :=
      congrArg Prod.snd hpair
    rw [← hR2, hF]
  have main : ∀ l : List String, (∀ s ∈ l, findName ev' s = some (idx s)) →
      lookupImportances ev' R l = .ok (l.map (fun s => (s, R (idx s)))) := by
    intro l
    induction l with
    | nil => intro _; rfl
    | cons s rest ih =>
        intro hall
        rw [lookupImportances, hall s (List.mem_cons_self s rest),
          ih (fun x hx => hall x (List.mem_cons_of_mem s hx))]
        rfl
  rw [getImportances, hcache]
  subst hR
  exact main hpNames hidx

unseal Rat.add Rat.mul Rat.inv Rat.sub in
/-- `C7` witness: on the example run, requesting `["alpha", "beta"]` returns
exactly the two (mean, dispersion) pairs of the cached decomposition. -/
theorem getImportances_shape_witness :
    calculate exEv exObs 2 0 = ((calculate exEv exObs 2 0).1, none) ∧
      (calculate exEv exObs 2 0).1.cache =
        some (fit (finiteRows exObs) 2 0, decompose (fit (finiteRows exObs) 2 0)) ∧
      (∀ s ∈ ["alpha", "beta"], findName (calculate exEv exObs 2 0).1 s =
        some (if s = "alpha" then (0 : Fin 2) else 1)) ∧
      getImportances (calculate exEv exObs 2 0).1 ["alpha", "beta"] =
        .ok (["alpha", "beta"].map (fun s =>
          (s, (listMean (treeFracs (fit (finiteRows exObs) 2 0)
                (if s = "alpha" then (0 : Fin 2) else 1)),
            listPopVar (treeFracs (fit (finiteRows exObs) 2 0)
                (if s = "alpha" then (0 : Fin 2) else 1)))))) :=
  ⟨by decide, by decide, by decide,
    getImportances_shape exEv (calculate exEv exObs 2 0).1 exObs 2 0
      (fit (finiteRows exObs) 2 0)
      (decompose (fit (finiteRows exObs) 2 0)) ["alpha", "beta"]
      (fun s => if s = "alpha" then (0 : Fin 2) else 1)
      (by decide) (by decide) (by decide)⟩

/-- `C8`: the first component of the vector returned by
`run.encode_config(default_config)` equals the first component of
`default_config.get_array()` — the run's encoding agrees with the
configuration's own array representation on that component. -/
theorem encode_config_first_component (run : SpecRun) (c : SpecConfiguration) :
    (run.encode_config c)[0]? =
      (SpecConfiguration.get_array run.space c)[0]? := by
  cases run with
  | mk space =>
      cases c with
      | mk raw =>
          cases space <;> cases raw <;>
            simp [SpecRun.encode_config, SpecConfiguration.get_array]

/-- `C9`: with the show-important-only option set, the `important_hp_names`
list of `ParallelCoordinates.process` contains every key of the importances
mapping exactly once (and nothing else), ordered so that the mean
importances are non-increasing from the first name to the last. -/
theorem importantHpNames_spec (impsDict : List (String × (ℚ × ℚ)))
    (hnd : (impsDict.map Prod.fst).Nodup) :
    (∀ s ∈ impsDict.map Prod.fst, (importantHpNames impsDict).count s = 1) ∧
      (importantHpNames impsDict).length = impsDict.length ∧
      List.Sorted (fun p q : String × ℚ => q.2 ≤ p.2)
        (sortedImportances impsDict) := by
  have hperm : List.Perm (sortedImportances impsDict) (meanImportances impsDict) :=
    List.perm_insertionSort _ _
  have h3 : (meanImportances impsDict).map Prod.fst = impsDict.map Prod.fst := by
    rw [meanImportances, List.map_map]
    rfl
  have hmapperm : List.Perm (importantHpNames impsDict) (impsDict.map Prod.fst) :=
    h3 ▸ hperm.map Prod.fst
  refine ⟨?_, ?_, ?_⟩
  · intro s hs
    rw [hmapperm.count_eq]
    exact List.count_eq_one_of_mem hnd hs
  · rw [hmapperm.length_eq, List.length_map]
  · haveI ht : IsTotal (String × ℚ) (fun p q => q.2 ≤ p.2) :=
      ⟨fun a b => le_total b.2 a.2⟩
    haveI htr : IsTrans (String × ℚ) (fun p q => q.2 ≤ p.2) :=
      ⟨fun _a _b _c h1 h2 => le_trans h2 h1⟩
    exact List.sorted_insertionSort _ _

/-- `C9` witness: a concrete two-entry importances mapping. -/
theorem importantHpNames_spec_witness :
    (([("alpha", ((1 : ℚ) / 2, (0 : ℚ))), ("beta", (2 / 3, 0))].map
        Prod.fst).Nodup) ∧
      ((∀ s ∈ [("alpha", ((1 : ℚ) / 2, (0 : ℚ))), ("beta", (2 / 3, 0))].map
          Prod.fst,
        (importantHpNames
          [("alpha", ((1 : ℚ) / 2, (0 : ℚ))), ("beta", (2 / 3, 0))]).count s
          = 1) ∧
      (importantHpNames
        [("alpha", ((1 : ℚ) / 2, (0 : ℚ))), ("beta", (2 / 3, 0))]).length
        = ([("alpha", ((1 : ℚ) / 2, (0 : ℚ))), ("beta", (2 / 3, 0))] :
            List (String × (ℚ × ℚ))).length ∧
      List.Sorted (fun p q : String × ℚ => q.2 ≤ p.2)
        (sortedImportances
          [("alpha", ((1 : ℚ) / 2, (0 : ℚ))), ("beta", (2 / 3, 0))])) :=
  ⟨by decide, importantHpNames_spec _ (by decide)⟩

/-- `C10`: in `ParallelCoordinates.load_outputs` a data row is included in
the plotted values exactly when the NaN-ness of its objective value equals
the `show_unsuccessful` flag — both for the objective-value list and for the
per-hyperparameter value lists. -/
theorem shownValues_spec (su : Bool) (vals : List ObjValue)
    (rows : List (ℚ × ObjValue)) :
    shownValues su vals = vals.filter (fun v => isnan v == su) ∧
      shownHpValues su rows =
        (rows.filter (fun r => isnan r.2 == su)).map Prod.fst := by
  constructor
  · induction vals with
    | nil => rfl
    | cons v rest ih =>
        cases su <;> rcases v with _ | q <;>
          simp [shownValues, isnan, List.filter_cons, ih]
  · induction rows with
    | nil => rfl
    | cons r rest ih =>
        cases su <;> rcases r with ⟨q, _ | o⟩ <;>
          simp [shownHpValues, isnan, List.filter_cons, ih]

end DeepCave
